import Mathlib

/-!
# Verification of the merkledag batch commit pipeline

Shallow embedding of the `Batch` type of package `merkledag` (fields
`activeCommits`, `commitError`, `commitResults`, `blocks`, `size`,
`MaxSize`, `MaxBlocks`) and its operations `processResults`,
`asyncCommit`, `Add` and `Commit`.

Modelling decisions:

* A block is a value of an abstract type `Blk`; the only thing the code
  reads from a node is `len(nd.RawData())`, modelled by a parameter
  `rawLen : Blk → Nat`.  The content identifier returned by `Add`
  (`nd.Cid()`) is modelled by the block itself (`some nd`), and the `nil`
  identifier returned on a latched error by `none`.
* The dag service bulk write `t.ds.Blocks.AddBlocks(b)` is modelled by a
  parameter `store : List Blk → Option Err`; `none` means the bulk write
  succeeded, `some e` that it failed with error `e`.
* The `commitResults` channel together with the goroutines launched by
  `asyncCommit` is modelled by the field `inflight : List (List Blk)`:
  the block slices handed to launched flush goroutines whose results
  have not yet been received.  Receiving from the channel removes one
  element (oracle parameters choose which, modelling the scheduler's
  freedom in completion order) and yields `store` applied to it.
  A receive from an empty `inflight` would block forever, so operations
  return `Option` and yield `none` for such a deadlocked execution.
* `flushes` and `drained` are history (ghost) variables: `flushes`
  records every dispatched flush in dispatch order, `drained` every
  received completion result in receive order.  No operation reads them.
-/

namespace Merkledag

variable {Blk Err : Type}

/-- State of a `Batch` (source: `type Batch struct`).  `activeCommits`,
`commitError`, `blocks`, `size`, `MaxSize`, `MaxBlocks` are the source
fields; `inflight` models the `commitResults` channel plus running flush
goroutines; `flushes` and `drained` are history variables. -/
structure Batch (Blk Err : Type) where
  activeCommits : Nat
  commitError : Option Err
  inflight : List (List Blk)
  blocks : List Blk
  size : Nat
  MaxSize : Nat
  MaxBlocks : Nat
  flushes : List (List Blk)
  drained : List (Option Err)
  deriving DecidableEq

/-- A freshly created batch with the given `MaxSize` and `MaxBlocks`. -/
def Batch.init (ms mb : Nat) : Batch Blk Err :=
  { activeCommits := 0, commitError := none, inflight := [], blocks := [], size := 0,
    MaxSize := ms, MaxBlocks := mb, flushes := [], drained := [] }

/-- One receive from the `commitResults` channel (`err :=
<-t.commitResults; t.activeCommits--`) of the completion of the `i`-th
in-flight flush, whose outcome is `res`.  Every receive in the source
happens with an empty latch and stores the received error into it when
non-nil (`if err != nil { t.commitError = err }`), which with an empty
latch is exactly `commitError := res`.  The result is also appended to
the `drained` history. -/
def Batch.receive (t : Batch Blk Err) (i : Nat) (res : Option Err) : Batch Blk Err :=
  { t with inflight := t.inflight.eraseIdx i,
           activeCommits := t.activeCommits - 1,
           commitError := res,
           drained := t.drained ++ [res] }

/-- Source: `func (t *Batch) processResults()`.  Non-blocking drain: while
`activeCommits > 0` and no error is latched, receive an immediately
available completion (the oracle `picks` chooses which in-flight flush
has completed; an out-of-range pick or an exhausted oracle plays the
`default:` branch, i.e. no message is available and the loop returns).
On each receive the counter is decremented and, the latch being empty
inside the loop, the received error (if any) is latched. -/
def processResults (store : List Blk → Option Err) :
    List Nat → Batch Blk Err → Batch Blk Err
  | [], t => t
  | i :: rest, t =>
    match t.activeCommits, t.commitError with
    | 0, _ => t
    | _ + 1, some _ => t
    | _ + 1, none =>
      match t.inflight[i]? with
      | none => t
      | some b => processResults store rest (t.receive i (store b))

/-- The launch step inside `asyncCommit`: start the goroutine performing
the bulk write of the currently buffered blocks (`go func(b)...` plus
`t.activeCommits++`), then clear the accumulation window
(`t.blocks = make(...)`, `t.size = 0`).  The dispatched slice is
appended to the `flushes` history. -/
def Batch.launch (t : Batch Blk Err) : Batch Blk Err :=
  { t with inflight := t.inflight ++ [t.blocks],
           activeCommits := t.activeCommits + 1,
           blocks := [],
           size := 0,
           flushes := t.flushes ++ [t.blocks] }

/-- Source: `func (t *Batch) asyncCommit()` with `mp` standing for
`ParallelBatchCommits`.  No-op when nothing is buffered or an error is
already latched.  When `activeCommits >= mp`, first perform one blocking
receive (`err := <-t.commitResults`; the oracle `pick` chooses which
in-flight flush completes first; if none is in flight the receive blocks
forever, modelled by `none`); on a received error, latch it and return
without dispatching.  Otherwise launch the flush of the buffered blocks. -/
def asyncCommit (mp : Nat) (store : List Blk → Option Err) (pick : Nat)
    (t : Batch Blk Err) : Option (Batch Blk Err) :=
  match t.blocks, t.commitError with
  | [], _ => some t
  | _ :: _, some _ => some t
  | _ :: _, none =>
    if mp ≤ t.activeCommits then
      if t.inflight.length = 0 then none
      else
        match store (t.inflight.getD (pick % t.inflight.length) []) with
        | some e => some (t.receive (pick % t.inflight.length) (some e))
        | none => some (Batch.launch (t.receive (pick % t.inflight.length) none))
    else some (Batch.launch t)

/-- The buffering step of `Add`: `t.blocks = append(t.blocks, nd)` and
`t.size += len(nd.RawData())`. -/
def Batch.append (rawLen : Blk → Nat) (t : Batch Blk Err) (nd : Blk) : Batch Blk Err :=
  { t with blocks := t.blocks ++ [nd], size := t.size + rawLen nd }

/-- The body of `Add` after the initial `processResults` drain: if an
error is latched, return `(nil, err)` without buffering; otherwise
buffer the node and, when `t.size > t.MaxSize || len(t.blocks) >
t.MaxBlocks`, call `asyncCommit`; finally return `(nd.Cid(),
t.commitError)`. -/
def Batch.addStep (rawLen : Blk → Nat) (mp : Nat) (store : List Blk → Option Err)
    (pick : Nat) (t₁ : Batch Blk Err) (nd : Blk) :
    Option (Option Blk × Option Err × Batch Blk Err) :=
  match t₁.commitError with
  | some e => some (none, some e, t₁)
  | none =>
    if (Batch.append rawLen t₁ nd).size > (Batch.append rawLen t₁ nd).MaxSize
        ∨ (Batch.append rawLen t₁ nd).blocks.length > (Batch.append rawLen t₁ nd).MaxBlocks then
      match asyncCommit mp store pick (Batch.append rawLen t₁ nd) with
      | none => none
      | some t₂ => some (some nd, t₂.commitError, t₂)
    else
      some (some nd, (Batch.append rawLen t₁ nd).commitError, Batch.append rawLen t₁ nd)

/-- Source: `func (t *Batch) Add(nd node.Node)`.  First drains
already-available completions with `processResults` (oracle `pr`), then
runs the add body. -/
def Batch.Add (rawLen : Blk → Nat) (mp : Nat) (store : List Blk → Option Err)
    (pr : List Nat) (pick : Nat) (t : Batch Blk Err) (nd : Blk) :
    Option (Option Blk × Option Err × Batch Blk Err) :=
  Batch.addStep rawLen mp store pick (processResults store pr t) nd

/-- The drain loop of `Commit`: while `activeCommits > 0` and no error
is latched, do a blocking receive, decrement the counter and latch a
received error.  The oracle `picks` chooses completion order; `fuel`
bounds the iterations (callers pass `activeCommits`, which the loop
strictly decreases, so the bound is never the reason it stops); a
blocking receive with nothing in flight deadlocks (`none`). -/
def drainFuel (store : List Blk → Option Err) :
    Nat → List Nat → Batch Blk Err → Option (Batch Blk Err)
  | 0, _, t =>
    match t.activeCommits, t.commitError with
    | 0, _ => some t
    | _ + 1, some _ => some t
    | _ + 1, none => none
  | fuel' + 1, picks, t =>
    match t.activeCommits, t.commitError with
    | 0, _ => some t
    | _ + 1, some _ => some t
    | _ + 1, none =>
      if t.inflight.length = 0 then none
      else
        drainFuel store fuel' picks.tail
          (t.receive (picks.headD 0 % t.inflight.length)
            (store (t.inflight.getD (picks.headD 0 % t.inflight.length) [])))

/-- The `Commit` drain loop with the fuel instantiated to the number of
outstanding flushes. -/
def drain (store : List Blk → Option Err) (picks : List Nat) (t : Batch Blk Err) :
    Option (Batch Blk Err) :=
  drainFuel store t.activeCommits picks t

/-- Source: `func (t *Batch) Commit() error`: a final `asyncCommit`
followed by the blocking drain loop, returning `t.commitError`. -/
def Batch.Commit (mp : Nat) (store : List Blk → Option Err) (pick : Nat)
    (picks : List Nat) (t : Batch Blk Err) : Option (Option Err × Batch Blk Err) :=
  match asyncCommit mp store pick t with
  | none => none
  | some t₁ =>
    match drain store picks t₁ with
    | none => none
    | some t₂ => some (t₂.commitError, t₂)

/-- Run a sequence of `Add` calls (with the canonical oracle that drains
nothing), threading the state and stopping on a deadlocked call. -/
def addAll (rawLen : Blk → Nat) (mp : Nat) (store : List Blk → Option Err) :
    List Blk → Batch Blk Err → Option (Batch Blk Err)
  | [], t => some t
  | nd :: nds, t =>
    match Batch.Add rawLen mp store [] 0 t nd with
    | none => none
    | some (_, _, t') => addAll rawLen mp store nds t'

/-! ## Basic lemmas about the operations -/

theorem processResults_nil (store : List Blk → Option Err) (t : Batch Blk Err) :
    processResults store [] t = t := rfl

theorem processResults_failed (store : List Blk → Option Err) (pr : List Nat)
    (t : Batch Blk Err) (e : Err) (h : t.commitError = some e) :
    processResults store pr t = t := by
  cases pr with
  | nil => rfl
  | cons i rest =>
    cases ha : t.activeCommits with
    | zero => simp [processResults, ha]
    | succ n => simp [processResults, ha, h]

theorem processResults_keeps (store : List Blk → Option Err) (pr : List Nat)
    (t : Batch Blk Err) :
    (processResults store pr t).blocks = t.blocks ∧
    (processResults store pr t).size = t.size ∧
    (processResults store pr t).flushes = t.flushes ∧
    (processResults store pr t).MaxSize = t.MaxSize ∧
    (processResults store pr t).MaxBlocks = t.MaxBlocks := by
  induction pr generalizing t with
  | nil => exact ⟨rfl, rfl, rfl, rfl, rfl⟩
  | cons i rest ih =>
    cases ha : t.activeCommits with
    | zero => simp [processResults, ha]
    | succ n =>
      cases he : t.commitError with
      | some e => simp [processResults, ha, he]
      | none =>
        cases hg : t.inflight[i]? with
        | none => simp [processResults, ha, he, hg]
        | some b =>
          have h2 := ih (t.receive i (store b))
          simp only [processResults, ha, he, hg]
          exact h2

theorem processResults_active_le (store : List Blk → Option Err) (pr : List Nat)
    (t : Batch Blk Err) :
    (processResults store pr t).activeCommits ≤ t.activeCommits := by
  induction pr generalizing t with
  | nil => exact le_rfl
  | cons i rest ih =>
    cases ha : t.activeCommits with
    | zero => simp [processResults, ha]
    | succ n =>
      cases he : t.commitError with
      | some e => simp [processResults, ha, he]
      | none =>
        cases hg : t.inflight[i]? with
        | none => simp [processResults, ha, he, hg]
        | some b =>
          have h2 := ih (t.receive i (store b))
          simp only [processResults, ha, he, hg]
          refine le_trans h2 ?_
          simp only [Batch.receive]
          omega

theorem asyncCommit_failed (mp : Nat) (store : List Blk → Option Err) (pick : Nat)
    (t : Batch Blk Err) (e : Err) (h : t.commitError = some e) :
    asyncCommit mp store pick t = some t := by
  cases hb : t.blocks with
  | nil => simp [asyncCommit, hb]
  | cons x xs => simp [asyncCommit, hb, h]

theorem asyncCommit_empty (mp : Nat) (store : List Blk → Option Err) (pick : Nat)
    (t : Batch Blk Err) (h : t.blocks = []) :
    asyncCommit mp store pick t = some t := by
  simp [asyncCommit, h]

theorem asyncCommit_launch (mp : Nat) (store : List Blk → Option Err) (pick : Nat)
    (t : Batch Blk Err) (h1 : t.commitError = none) (h2 : t.blocks ≠ [])
    (h3 : t.activeCommits < mp) :
    asyncCommit mp store pick t = some t.launch := by
  cases hb : t.blocks with
  | nil => exact absurd hb h2
  | cons x xs => simp [asyncCommit, hb, h1, not_le.mpr h3]

/-- At the parallelism ceiling with a successful backpressure
completion, `asyncCommit` frees one slot and then launches. -/
theorem asyncCommit_ceiling_ok (mp : Nat) (store : List Blk → Option Err) (pick : Nat)
    (t : Batch Blk Err) (h1 : t.commitError = none) (h2 : t.blocks ≠ [])
    (h3 : mp ≤ t.activeCommits) (h4 : ¬t.inflight.length = 0)
    (h5 : store (t.inflight.getD (pick % t.inflight.length) []) = none) :
    asyncCommit mp store pick t =
      some ((t.receive (pick % t.inflight.length) none).launch) := by
  have h5' : store (t.inflight[pick % t.inflight.length]?.getD []) = none := by
    simpa using h5
  cases hb : t.blocks with
  | nil => exact absurd hb h2
  | cons x xs => simp [asyncCommit, hb, h1, if_pos h3, if_neg h4, h5']

/-- At the parallelism ceiling with a failing backpressure completion,
`asyncCommit` latches the received error and returns without launching
any flush. -/
theorem asyncCommit_ceiling_err (mp : Nat) (store : List Blk → Option Err) (pick : Nat)
    (t : Batch Blk Err) (e : Err) (h1 : t.commitError = none) (h2 : t.blocks ≠ [])
    (h3 : mp ≤ t.activeCommits) (h4 : ¬t.inflight.length = 0)
    (h5 : store (t.inflight.getD (pick % t.inflight.length) []) = some e) :
    asyncCommit mp store pick t =
      some (t.receive (pick % t.inflight.length) (some e)) := by
  have h5' : store (t.inflight[pick % t.inflight.length]?.getD []) = some e := by
    simpa using h5
  cases hb : t.blocks with
  | nil => exact absurd hb h2
  | cons x xs => simp [asyncCommit, hb, h1, if_pos h3, if_neg h4, h5']

/-- Exhaustive description of the possible outcomes of `asyncCommit`. -/
theorem asyncCommit_cases (mp : Nat) (store : List Blk → Option Err) (pick : Nat)
    (t t' : Batch Blk Err) (h : asyncCommit mp store pick t = some t') :
    (t' = t ∧ (t.blocks = [] ∨ ∃ e, t.commitError = some e)) ∨
    (∃ i e, i < t.inflight.length ∧ store (t.inflight.getD i []) = some e ∧
      t' = t.receive i (some e) ∧ t.commitError = none ∧ t.blocks ≠ []) ∨
    (∃ i, i < t.inflight.length ∧ store (t.inflight.getD i []) = none ∧
      t' = (t.receive i none).launch ∧ t.commitError = none ∧ t.blocks ≠ []) ∨
    (t' = t.launch ∧ t.commitError = none ∧ t.blocks ≠ [] ∧ t.activeCommits < mp) := by
  cases hb : t.blocks with
  | nil =>
    left
    rw [asyncCommit_empty mp store pick t hb] at h
    exact ⟨(Option.some.injEq _ _ ▸ h).symm, Or.inl rfl⟩
  | cons x xs =>
    cases he : t.commitError with
    | some e =>
      left
      rw [asyncCommit_failed mp store pick t e he] at h
      exact ⟨(Option.some.injEq _ _ ▸ h).symm, Or.inr ⟨e, rfl⟩⟩
    | none =>
      by_cases hmp : mp ≤ t.activeCommits
      · by_cases hlen : t.inflight.length = 0
        · simp [asyncCommit, hb, he, hmp, hlen] at h
        · have hpos : 0 < t.inflight.length := Nat.pos_of_ne_zero hlen
          have hi : pick % t.inflight.length < t.inflight.length := Nat.mod_lt _ hpos
          cases hres : store (t.inflight.getD (pick % t.inflight.length) []) with
          | some e =>
            right; left
            refine ⟨pick % t.inflight.length, e, hi, hres, ?_, rfl, by simp [hb]⟩
            simp only [asyncCommit, hb, he, if_pos hmp, if_neg hlen, hres] at h
            exact (Option.some.injEq _ _ ▸ h).symm
          | none =>
            right; right; left
            refine ⟨pick % t.inflight.length, hi, hres, ?_, rfl, by simp [hb]⟩
            simp only [asyncCommit, hb, he, if_pos hmp, if_neg hlen, hres] at h
            exact (Option.some.injEq _ _ ▸ h).symm
      · right; right; right
        rw [asyncCommit_launch mp store pick t he (by simp [hb]) (not_le.mp hmp)] at h
        exact ⟨(Option.some.injEq _ _ ▸ h).symm, rfl, by simp [hb], not_le.mp hmp⟩

theorem drainFuel_zero_active (store : List Blk → Option Err) (fuel : Nat)
    (picks : List Nat) (t : Batch Blk Err) (h : t.activeCommits = 0) :
    drainFuel store fuel picks t = some t := by
  cases fuel <;> simp [drainFuel, h]

theorem drainFuel_failed (store : List Blk → Option Err) (fuel : Nat)
    (picks : List Nat) (t : Batch Blk Err) (e : Err) (h : t.commitError = some e) :
    drainFuel store fuel picks t = some t := by
  cases fuel <;> cases ha : t.activeCommits <;> simp [drainFuel, ha, h]

/-- When the drain loop of `Commit` terminates, either all outstanding
flushes have been received or an error has been latched (and the loop
exited early). -/
theorem drainFuel_post (store : List Blk → Option Err) (fuel : Nat)
    (picks : List Nat) (t t' : Batch Blk Err)
    (h : drainFuel store fuel picks t = some t') :
    t'.activeCommits = 0 ∨ ∃ e, t'.commitError = some e := by
  induction fuel generalizing picks t with
  | zero =>
    cases ha : t.activeCommits with
    | zero =>
      rw [drainFuel_zero_active store 0 picks t ha] at h
      simp only [Option.some.injEq] at h
      exact Or.inl (h ▸ ha)
    | succ n =>
      cases he : t.commitError with
      | some e =>
        rw [drainFuel_failed store 0 picks t e he] at h
        simp only [Option.some.injEq] at h
        exact Or.inr ⟨e, h ▸ he⟩
      | none => simp [drainFuel, ha, he] at h
  | succ fuel' ih =>
    cases ha : t.activeCommits with
    | zero =>
      rw [drainFuel_zero_active store _ picks t ha] at h
      simp only [Option.some.injEq] at h
      exact Or.inl (h ▸ ha)
    | succ n =>
      cases he : t.commitError with
      | some e =>
        rw [drainFuel_failed store _ picks t e he] at h
        simp only [Option.some.injEq] at h
        exact Or.inr ⟨e, h ▸ he⟩
      | none =>
        simp only [drainFuel, ha, he] at h
        by_cases hlen : t.inflight.length = 0
        · simp [hlen] at h
        · rw [if_neg hlen] at h
          exact ih _ _ h

theorem drainFuel_keeps (store : List Blk → Option Err) (fuel : Nat)
    (picks : List Nat) (t t' : Batch Blk Err)
    (h : drainFuel store fuel picks t = some t') :
    t'.blocks = t.blocks ∧ t'.size = t.size ∧ t'.flushes = t.flushes ∧
    t'.MaxSize = t.MaxSize ∧ t'.MaxBlocks = t.MaxBlocks := by
  induction fuel generalizing picks t with
  | zero =>
    cases ha : t.activeCommits with
    | zero =>
      rw [drainFuel_zero_active store 0 picks t ha] at h
      simp only [Option.some.injEq] at h
      exact h ▸ ⟨rfl, rfl, rfl, rfl, rfl⟩
    | succ n =>
      cases he : t.commitError with
      | some e =>
        rw [drainFuel_failed store 0 picks t e he] at h
        simp only [Option.some.injEq] at h
        exact h ▸ ⟨rfl, rfl, rfl, rfl, rfl⟩
      | none => simp [drainFuel, ha, he] at h
  | succ fuel' ih =>
    cases ha : t.activeCommits with
    | zero =>
      rw [drainFuel_zero_active store _ picks t ha] at h
      simp only [Option.some.injEq] at h
      exact h ▸ ⟨rfl, rfl, rfl, rfl, rfl⟩
    | succ n =>
      cases he : t.commitError with
      | some e =>
        rw [drainFuel_failed store _ picks t e he] at h
        simp only [Option.some.injEq] at h
        exact h ▸ ⟨rfl, rfl, rfl, rfl, rfl⟩
      | none =>
        simp only [drainFuel, ha, he] at h
        by_cases hlen : t.inflight.length = 0
        · simp [hlen] at h
        · rw [if_neg hlen] at h
          have h5 := ih picks.tail
            (t.receive (picks.headD 0 % t.inflight.length)
              (store (t.inflight.getD (picks.headD 0 % t.inflight.length) []))) h
          exact h5

theorem commit_failed (mp : Nat) (store : List Blk → Option Err) (pick : Nat)
    (picks : List Nat) (t : Batch Blk Err) (e : Err) (h : t.commitError = some e) :
    Batch.Commit mp store pick picks t = some (some e, t) := by
  unfold Batch.Commit
  rw [asyncCommit_failed mp store pick t e h]
  dsimp only []
  unfold drain
  rw [drainFuel_failed store _ picks t e h]
  dsimp only []
  rw [h]

theorem commit_result (mp : Nat) (store : List Blk → Option Err) (pick : Nat)
    (picks : List Nat) (t : Batch Blk Err) (r : Option Err) (t' : Batch Blk Err)
    (h : Batch.Commit mp store pick picks t = some (r, t')) :
    r = t'.commitError ∧
    ∃ t₁, asyncCommit mp store pick t = some t₁ ∧ drain store picks t₁ = some t' := by
  unfold Batch.Commit at h
  cases hc : asyncCommit mp store pick t with
  | none => rw [hc] at h; simp at h
  | some t₁ =>
    rw [hc] at h
    dsimp only [] at h
    cases hd : drain store picks t₁ with
    | none => rw [hd] at h; simp at h
    | some t₂ =>
      rw [hd] at h
      dsimp only [] at h
      simp only [Option.some.injEq, Prod.mk.injEq] at h
      exact ⟨h.1.symm.trans (by rw [h.2]), t₁, rfl, h.2 ▸ hd⟩

/-! ## The inductive invariant -/

theorem findSome?_id_append_of_none (l : List (Option Err)) (x : Option Err)
    (h : l.findSome? id = none) : (l ++ [x]).findSome? id = x := by
  induction l with
  | nil => cases x <;> simp [List.findSome?]
  | cons a rest ih =>
    cases a with
    | some v => simp [List.findSome?_cons] at h
    | none =>
      simp only [List.cons_append, List.findSome?_cons, id] at h ⊢
      exact ih h

/-- The inductive invariant of a batch: the in-flight counter agrees
with the channel model, respects the parallelism bound, `size` is the
byte total of `blocks`, and the latched error is the first error in
receive order. -/
def Inv (rawLen : Blk → Nat) (mp : Nat) (t : Batch Blk Err) : Prop :=
  t.activeCommits = t.inflight.length ∧
  t.activeCommits ≤ mp ∧
  t.size = (t.blocks.map rawLen).sum ∧
  t.commitError = t.drained.findSome? id

theorem receive_inv (rawLen : Blk → Nat) (mp : Nat) (t : Batch Blk Err) (i : Nat)
    (res : Option Err) (hI : Inv rawLen mp t) (hi : i < t.inflight.length)
    (he : t.commitError = none) :
    Inv rawLen mp (t.receive i res) := by
  obtain ⟨h1, h2, h3, h4⟩ := hI
  refine ⟨?_, ?_, h3, ?_⟩
  · show t.activeCommits - 1 = (t.inflight.eraseIdx i).length
    rw [List.length_eraseIdx]
    simp only [hi, if_pos]
    omega
  · show t.activeCommits - 1 ≤ mp
    omega
  · show res = (t.drained ++ [res]).findSome? id
    have h0 : t.drained.findSome? id = none := by rw [← h4, he]
    rw [findSome?_id_append_of_none _ _ h0]

theorem launch_inv (rawLen : Blk → Nat) (mp : Nat) (t : Batch Blk Err)
    (hI : Inv rawLen mp t) (hlt : t.activeCommits < mp) :
    Inv rawLen mp t.launch := by
  obtain ⟨h1, h2, h3, h4⟩ := hI
  refine ⟨?_, ?_, ?_, h4⟩
  · show t.activeCommits + 1 = (t.inflight ++ [t.blocks]).length
    rw [List.length_append, h1]
    rfl
  · show t.activeCommits + 1 ≤ mp
    omega
  · show (0 : Nat) = (([] : List Blk).map rawLen).sum
    simp

theorem asyncCommit_inv (rawLen : Blk → Nat) (mp : Nat) (store : List Blk → Option Err)
    (pick : Nat) (t t' : Batch Blk Err) (hI : Inv rawLen mp t)
    (h : asyncCommit mp store pick t = some t') : Inv rawLen mp t' := by
  rcases asyncCommit_cases mp store pick t t' h with
    ⟨rfl, _⟩ | ⟨i, e, hi, _, rfl, he, _⟩ | ⟨i, hi, _, rfl, he, _⟩ | ⟨rfl, _, _, hlt⟩
  · exact hI
  · exact receive_inv rawLen mp t i (some e) hI hi he
  · have hrI := receive_inv rawLen mp t i none hI hi he
    refine launch_inv rawLen mp _ hrI ?_
    show t.activeCommits - 1 < mp
    obtain ⟨h1, h2, _, _⟩ := hI
    omega
  · exact launch_inv rawLen mp t hI hlt

theorem processResults_inv (rawLen : Blk → Nat) (mp : Nat) (store : List Blk → Option Err)
    (pr : List Nat) (t : Batch Blk Err) (hI : Inv rawLen mp t) :
    Inv rawLen mp (processResults store pr t) := by
  induction pr generalizing t with
  | nil => exact hI
  | cons i rest ih =>
    cases ha : t.activeCommits with
    | zero => simpa [processResults, ha] using hI
    | succ n =>
      cases he : t.commitError with
      | some e => simpa [processResults, ha, he] using hI
      | none =>
        cases hg : t.inflight[i]? with
        | none => simpa [processResults, ha, he, hg] using hI
        | some b =>
          simp only [processResults, ha, he, hg]
          have hi : i < t.inflight.length := by
            by_contra hcon
            rw [List.getElem?_eq_none (by omega)] at hg
            exact Option.noConfusion hg
          exact ih _ (receive_inv rawLen mp t i (store b) hI hi he)

theorem drainFuel_inv (rawLen : Blk → Nat) (mp : Nat) (store : List Blk → Option Err)
    (fuel : Nat) (picks : List Nat) (t t' : Batch Blk Err) (hI : Inv rawLen mp t)
    (h : drainFuel store fuel picks t = some t') : Inv rawLen mp t' := by
  induction fuel generalizing picks t with
  | zero =>
    cases ha : t.activeCommits with
    | zero =>
      rw [drainFuel_zero_active store 0 picks t ha] at h
      simp only [Option.some.injEq] at h
      exact h ▸ hI
    | succ n =>
      cases he : t.commitError with
      | some e =>
        rw [drainFuel_failed store 0 picks t e he] at h
        simp only [Option.some.injEq] at h
        exact h ▸ hI
      | none => simp [drainFuel, ha, he] at h
  | succ fuel' ih =>
    cases ha : t.activeCommits with
    | zero =>
      rw [drainFuel_zero_active store _ picks t ha] at h
      simp only [Option.some.injEq] at h
      exact h ▸ hI
    | succ n =>
      cases he : t.commitError with
      | some e =>
        rw [drainFuel_failed store _ picks t e he] at h
        simp only [Option.some.injEq] at h
        exact h ▸ hI
      | none =>
        simp only [drainFuel, ha, he] at h
        by_cases hlen : t.inflight.length = 0
        · simp [hlen] at h
        · rw [if_neg hlen] at h
          have hi : (picks.headD 0 % t.inflight.length) < t.inflight.length :=
            Nat.mod_lt _ (Nat.pos_of_ne_zero hlen)
          exact ih _ _ (receive_inv rawLen mp t _ _ hI hi he) h

theorem append_inv (rawLen : Blk → Nat) (mp : Nat) (t : Batch Blk Err) (nd : Blk)
    (hI : Inv rawLen mp t) : Inv rawLen mp (Batch.append rawLen t nd) := by
  obtain ⟨h1, h2, h3, h4⟩ := hI
  refine ⟨h1, h2, ?_, h4⟩
  show t.size + rawLen nd = ((t.blocks ++ [nd]).map rawLen).sum
  rw [List.map_append, List.sum_append, h3]
  simp

theorem addStep_inv (rawLen : Blk → Nat) (mp : Nat) (store : List Blk → Option Err)
    (pick : Nat) (t₁ : Batch Blk Err) (nd : Blk) (c : Option Blk) (e : Option Err)
    (t₂ : Batch Blk Err) (hI : Inv rawLen mp t₁)
    (h : Batch.addStep rawLen mp store pick t₁ nd = some (c, e, t₂)) :
    Inv rawLen mp t₂ := by
  unfold Batch.addStep at h
  cases he : t₁.commitError with
  | some err =>
    rw [he] at h
    dsimp only [] at h
    simp only [Option.some.injEq, Prod.mk.injEq] at h
    exact h.2.2 ▸ hI
  | none =>
    rw [he] at h
    dsimp only [] at h
    by_cases hth : ((Batch.append rawLen t₁ nd).size > (Batch.append rawLen t₁ nd).MaxSize
        ∨ (Batch.append rawLen t₁ nd).blocks.length > (Batch.append rawLen t₁ nd).MaxBlocks)
    · rw [if_pos hth] at h
      cases hac : asyncCommit mp store pick (Batch.append rawLen t₁ nd) with
      | none => rw [hac] at h; exact absurd h (by simp)
      | some t₃ =>
        rw [hac] at h
        dsimp only [] at h
        simp only [Option.some.injEq, Prod.mk.injEq] at h
        exact h.2.2 ▸ asyncCommit_inv rawLen mp store pick _ t₃
          (append_inv rawLen mp t₁ nd hI) hac
    · rw [if_neg hth] at h
      simp only [Option.some.injEq, Prod.mk.injEq] at h
      exact h.2.2 ▸ append_inv rawLen mp t₁ nd hI

theorem add_inv (rawLen : Blk → Nat) (mp : Nat) (store : List Blk → Option Err)
    (pr : List Nat) (pick : Nat) (t : Batch Blk Err) (nd : Blk) (c : Option Blk)
    (e : Option Err) (t' : Batch Blk Err) (hI : Inv rawLen mp t)
    (h : Batch.Add rawLen mp store pr pick t nd = some (c, e, t')) :
    Inv rawLen mp t' :=
  addStep_inv rawLen mp store pick _ nd c e t'
    (processResults_inv rawLen mp store pr t hI) h

theorem commit_inv (rawLen : Blk → Nat) (mp : Nat) (store : List Blk → Option Err)
    (pick : Nat) (picks : List Nat) (t : Batch Blk Err) (r : Option Err)
    (t' : Batch Blk Err) (hI : Inv rawLen mp t)
    (h : Batch.Commit mp store pick picks t = some (r, t')) :
    Inv rawLen mp t' := by
  obtain ⟨-, t₁, hac, hdr⟩ := commit_result mp store pick picks t r t' h
  exact drainFuel_inv rawLen mp store _ picks t₁ t'
    (asyncCommit_inv rawLen mp store pick t t₁ hI hac) hdr

/-! ## The batch state machine -/

/-- One step of the batch state machine: a call of `Add` or `Commit`, or
one of the internal sub-operations `processResults` / `asyncCommit`. -/
inductive Step (rawLen : Blk → Nat) (mp : Nat) (store : List Blk → Option Err) :
    Batch Blk Err → Batch Blk Err → Prop
  | add (pr : List Nat) (pick : Nat) (nd : Blk) (c : Option Blk) (e : Option Err)
      (t t' : Batch Blk Err) :
      Batch.Add rawLen mp store pr pick t nd = some (c, e, t') → Step rawLen mp store t t'
  | commit (pick : Nat) (picks : List Nat) (r : Option Err) (t t' : Batch Blk Err) :
      Batch.Commit mp store pick picks t = some (r, t') → Step rawLen mp store t t'
  | process (pr : List Nat) (t : Batch Blk Err) :
      Step rawLen mp store t (processResults store pr t)
  | async (pick : Nat) (t t' : Batch Blk Err) :
      asyncCommit mp store pick t = some t' → Step rawLen mp store t t'

/-- Reachability of a batch state from a freshly created batch by any
sequence of calls and completions. -/
def Reachable (rawLen : Blk → Nat) (mp : Nat) (store : List Blk → Option Err)
    (ms mb : Nat) (t : Batch Blk Err) : Prop :=
  Relation.ReflTransGen (Step rawLen mp store) (Batch.init ms mb) t

theorem step_inv (rawLen : Blk → Nat) (mp : Nat) (store : List Blk → Option Err)
    (t t' : Batch Blk Err) (hI : Inv rawLen mp t) (h : Step rawLen mp store t t') :
    Inv rawLen mp t' := by
  cases h with
  | add pr pick nd c e t t' hadd => exact add_inv rawLen mp store pr pick t nd c e t' hI hadd
  | commit pick picks r t t' hcom => exact commit_inv rawLen mp store pick picks t r t' hI hcom
  | process pr t => exact processResults_inv rawLen mp store pr t hI
  | async pick t t' hac => exact asyncCommit_inv rawLen mp store pick t t' hI hac

theorem init_inv (rawLen : Blk → Nat) (mp : Nat) (ms mb : Nat) :
    Inv rawLen mp (Batch.init ms mb : Batch Blk Err) :=
  ⟨rfl, Nat.zero_le mp, rfl, rfl⟩

theorem reachable_inv (rawLen : Blk → Nat) (mp : Nat) (store : List Blk → Option Err)
    (ms mb : Nat) (t : Batch Blk Err) (h : Reachable rawLen mp store ms mb t) :
    Inv rawLen mp t := by
  induction h with
  | refl => exact init_inv rawLen mp ms mb
  | tail hsteps hstep ih => exact step_inv rawLen mp store _ _ ih hstep

/-! ## Behaviour on a failed batch -/

theorem addStep_failed (rawLen : Blk → Nat) (mp : Nat) (store : List Blk → Option Err)
    (pick : Nat) (t₁ : Batch Blk Err) (nd : Blk) (e : Err) (h : t₁.commitError = some e) :
    Batch.addStep rawLen mp store pick t₁ nd = some (none, some e, t₁) := by
  unfold Batch.addStep
  rw [h]

theorem add_failed (rawLen : Blk → Nat) (mp : Nat) (store : List Blk → Option Err)
    (pr : List Nat) (pick : Nat) (t : Batch Blk Err) (nd : Blk) (e : Err)
    (h : t.commitError = some e) :
    Batch.Add rawLen mp store pr pick t nd = some (none, some e, t) := by
  unfold Batch.Add
  rw [processResults_failed store pr t e h]
  exact addStep_failed rawLen mp store pick t nd e h

theorem step_of_failed (rawLen : Blk → Nat) (mp : Nat) (store : List Blk → Option Err)
    (t t' : Batch Blk Err) (e : Err) (h : t.commitError = some e)
    (hs : Step rawLen mp store t t') : t' = t := by
  cases hs with
  | add pr pick nd c e' t t' hadd =>
    rw [add_failed rawLen mp store pr pick t nd e h] at hadd
    simp only [Option.some.injEq, Prod.mk.injEq] at hadd
    exact hadd.2.2.symm
  | commit pick picks r t t' hcom =>
    rw [commit_failed mp store pick picks t e h] at hcom
    simp only [Option.some.injEq, Prod.mk.injEq] at hcom
    exact hcom.2.symm
  | process pr t => exact processResults_failed store pr t e h
  | async pick t t' hac =>
    rw [asyncCommit_failed mp store pick t e h] at hac
    simp only [Option.some.injEq] at hac
    exact hac.symm

/-! ## Behaviour of Add on an unfailed batch -/

theorem addStep_dispatch (rawLen : Blk → Nat) (mp : Nat) (store : List Blk → Option Err)
    (pick : Nat) (t₁ : Batch Blk Err) (nd : Blk)
    (h1 : t₁.commitError = none) (h2 : t₁.activeCommits < mp)
    (hth : (Batch.append rawLen t₁ nd).size > (Batch.append rawLen t₁ nd).MaxSize
        ∨ (Batch.append rawLen t₁ nd).blocks.length > (Batch.append rawLen t₁ nd).MaxBlocks) :
    Batch.addStep rawLen mp store pick t₁ nd =
      some (some nd, none, (Batch.append rawLen t₁ nd).launch) := by
  have hac := asyncCommit_launch mp store pick (Batch.append rawLen t₁ nd)
    (by simpa [Batch.append] using h1) (by simp [Batch.append])
    (by simpa [Batch.append] using h2)
  unfold Batch.addStep
  rw [h1]
  dsimp only []
  rw [if_pos hth, hac]
  dsimp only []
  simp [Batch.launch, Batch.append, h1]

theorem addStep_ceiling_ok (rawLen : Blk → Nat) (mp : Nat) (store : List Blk → Option Err)
    (pick : Nat) (t₁ : Batch Blk Err) (nd : Blk)
    (h1 : t₁.commitError = none) (h3 : mp ≤ t₁.activeCommits)
    (h4 : ¬t₁.inflight.length = 0)
    (h5 : store (t₁.inflight.getD (pick % t₁.inflight.length) []) = none)
    (hth : (Batch.append rawLen t₁ nd).size > (Batch.append rawLen t₁ nd).MaxSize
        ∨ (Batch.append rawLen t₁ nd).blocks.length > (Batch.append rawLen t₁ nd).MaxBlocks) :
    Batch.addStep rawLen mp store pick t₁ nd =
      some (some nd, none,
        ((Batch.append rawLen t₁ nd).receive (pick % t₁.inflight.length) none).launch) := by
  have hac := asyncCommit_ceiling_ok mp store pick (Batch.append rawLen t₁ nd)
    (by simpa [Batch.append] using h1) (by simp [Batch.append])
    (by simpa [Batch.append] using h3) (by simpa [Batch.append] using h4)
    (by simpa [Batch.append] using h5)
  unfold Batch.addStep
  rw [h1]
  dsimp only []
  rw [if_pos hth, hac]
  dsimp only []
  rfl

theorem addStep_ceiling_err (rawLen : Blk → Nat) (mp : Nat) (store : List Blk → Option Err)
    (pick : Nat) (t₁ : Batch Blk Err) (nd : Blk) (e : Err)
    (h1 : t₁.commitError = none) (h3 : mp ≤ t₁.activeCommits)
    (h4 : ¬t₁.inflight.length = 0)
    (h5 : store (t₁.inflight.getD (pick % t₁.inflight.length) []) = some e)
    (hth : (Batch.append rawLen t₁ nd).size > (Batch.append rawLen t₁ nd).MaxSize
        ∨ (Batch.append rawLen t₁ nd).blocks.length > (Batch.append rawLen t₁ nd).MaxBlocks) :
    Batch.addStep rawLen mp store pick t₁ nd =
      some (some nd, some e,
        (Batch.append rawLen t₁ nd).receive (pick % t₁.inflight.length) (some e)) := by
  have hac := asyncCommit_ceiling_err mp store pick (Batch.append rawLen t₁ nd) e
    (by simpa [Batch.append] using h1) (by simp [Batch.append])
    (by simpa [Batch.append] using h3) (by simpa [Batch.append] using h4)
    (by simpa [Batch.append] using h5)
  unfold Batch.addStep
  rw [h1]
  dsimp only []
  rw [if_pos hth, hac]
  dsimp only []
  rfl

theorem addStep_no_dispatch (rawLen : Blk → Nat) (mp : Nat) (store : List Blk → Option Err)
    (pick : Nat) (t₁ : Batch Blk Err) (nd : Blk)
    (h1 : t₁.commitError = none)
    (hth : ¬((Batch.append rawLen t₁ nd).size > (Batch.append rawLen t₁ nd).MaxSize
        ∨ (Batch.append rawLen t₁ nd).blocks.length > (Batch.append rawLen t₁ nd).MaxBlocks)) :
    Batch.addStep rawLen mp store pick t₁ nd =
      some (some nd, none, Batch.append rawLen t₁ nd) := by
  unfold Batch.addStep
  rw [h1]
  dsimp only []
  rw [if_neg hth]
  simp [Batch.append, h1]

/-! ## Basic facts about the drain wrapper -/

theorem drain_failed (store : List Blk → Option Err) (picks : List Nat)
    (t : Batch Blk Err) (e : Err) (h : t.commitError = some e) :
    drain store picks t = some t :=
  drainFuel_failed store t.activeCommits picks t e h

theorem drain_zero_active (store : List Blk → Option Err) (picks : List Nat)
    (t : Batch Blk Err) (h : t.activeCommits = 0) :
    drain store picks t = some t :=
  drainFuel_zero_active store t.activeCommits picks t h

theorem drain_post (store : List Blk → Option Err) (picks : List Nat)
    (t t' : Batch Blk Err) (h : drain store picks t = some t') :
    t'.activeCommits = 0 ∨ ∃ e, t'.commitError = some e :=
  drainFuel_post store t.activeCommits picks t t' h

theorem drain_keeps (store : List Blk → Option Err) (picks : List Nat)
    (t t' : Batch Blk Err) (h : drain store picks t = some t') :
    t'.blocks = t.blocks ∧ t'.size = t.size ∧ t'.flushes = t.flushes ∧
    t'.MaxSize = t.MaxSize ∧ t'.MaxBlocks = t.MaxBlocks :=
  drainFuel_keeps store t.activeCommits picks t t' h

theorem drainFuel_step (store : List Blk → Option Err) (fuel : Nat) (picks : List Nat)
    (t : Batch Blk Err) (n : Nat) (ha : t.activeCommits = n + 1)
    (he : t.commitError = none) (hlen : ¬t.inflight.length = 0) :
    drainFuel store (fuel + 1) picks t =
      drainFuel store fuel picks.tail
        (t.receive (picks.headD 0 % t.inflight.length)
          (store (t.inflight.getD (picks.headD 0 % t.inflight.length) []))) := by
  simp only [drainFuel, ha, he]
  rw [if_neg hlen]

/-- Draining a single outstanding flush receives exactly its result. -/
theorem drain_one (store : List Blk → Option Err) (picks : List Nat)
    (t : Batch Blk Err) (c : List Blk) (ha : t.activeCommits = 1)
    (he : t.commitError = none) (hin : t.inflight = [c]) :
    drain store picks t = some (t.receive 0 (store c)) := by
  unfold drain
  rw [ha]
  have h1 : (1 : Nat) = 0 + 1 := rfl
  rw [h1, drainFuel_step store 0 picks t 0 ha he (by rw [hin]; simp)]
  have hidx : picks.headD 0 % t.inflight.length = 0 := by rw [hin]; simp [Nat.mod_one]
  rw [hidx]
  have hgd : t.inflight.getD 0 [] = c := by rw [hin]; rfl
  rw [hgd]
  exact drainFuel_zero_active store 0 picks.tail _ (by simp [Batch.receive, ha])

/-- A sequence of `Add` calls whose cumulative size and count stay
within the thresholds triggers no dispatch: the blocks simply pile up
in the pending buffer. -/
theorem addAll_no_dispatch (rawLen : Blk → Nat) (mp : Nat) (store : List Blk → Option Err)
    (ns : List Blk) (t : Batch Blk Err) (he : t.commitError = none)
    (hsz : t.size + (ns.map rawLen).sum ≤ t.MaxSize)
    (hct : t.blocks.length + ns.length ≤ t.MaxBlocks) :
    addAll rawLen mp store ns t =
      some { t with blocks := t.blocks ++ ns, size := t.size + (ns.map rawLen).sum } := by
  induction ns generalizing t with
  | nil => simp [addAll]
  | cons n ns ih =>
    have hsz1 : t.size + rawLen n + (ns.map rawLen).sum ≤ t.MaxSize := by
      simp only [List.map_cons, List.sum_cons] at hsz
      omega
    have hct1 : t.blocks.length + 1 + ns.length ≤ t.MaxBlocks := by
      simp only [List.length_cons] at hct
      omega
    have hth : ¬((Batch.append rawLen t n).size > (Batch.append rawLen t n).MaxSize
        ∨ (Batch.append rawLen t n).blocks.length > (Batch.append rawLen t n).MaxBlocks) := by
      simp only [Batch.append, not_or, not_lt, List.length_append, List.length_cons,
        List.length_nil, gt_iff_lt]
      exact ⟨by omega, by omega⟩
    unfold addAll Batch.Add
    rw [processResults_nil, addStep_no_dispatch rawLen mp store 0 t n he hth]
    dsimp only []
    rw [ih (Batch.append rawLen t n) he hsz1 (by simp [Batch.append]; omega)]
    congr 1
    simp [Batch.append, List.append_assoc, Nat.add_assoc]

/-! ## Concrete test vectors -/

/-- Byte-length function for test vectors: a block is a pair of an
identifier and its byte length. -/
def pairLen : Nat × Nat → Nat := fun b => b.2

/-- A concrete batch state with a latched error. -/
def failedB : Batch (Nat × Nat) Nat :=
  { Batch.init 10 10 with commitError := some 7 }

/-! ## Claim theorems -/

/-- C1: once a flush failure has been latched (`commitError = some e`),
every subsequent `Add` returns that same latched error with a nil
identifier and leaves the state — in particular the pending buffer
(`blocks`) and its byte count (`size`) — unchanged, and a subsequent
`Commit` returns the same latched error. -/
theorem add_commit_after_latched_failure (rawLen : Blk → Nat) (mp : Nat)
    (store : List Blk → Option Err) (t : Batch Blk Err) (e : Err)
    (h : t.commitError = some e) :
    (∀ pr pick nd, Batch.Add rawLen mp store pr pick t nd = some (none, some e, t)) ∧
    (∀ pick picks, Batch.Commit mp store pick picks t = some (some e, t)) :=
  ⟨fun pr pick nd => add_failed rawLen mp store pr pick t nd e h,
   fun pick picks => commit_failed mp store pick picks t e h⟩

/-- Witness for C1 at a concrete failed batch. -/
theorem add_commit_after_latched_failure_witness :
    Batch.Add pairLen 2 (fun _ => none) [] 0 failedB (1, 4) = some (none, some 7, failedB) ∧
    Batch.Commit 2 (fun _ => none) 0 [] failedB = some (some 7, failedB) :=
  ⟨(add_commit_after_latched_failure pairLen 2 (fun _ => none) failedB 7 rfl).1 [] 0 (1, 4),
   (add_commit_after_latched_failure pairLen 2 (fun _ => none) failedB 7 rfl).2 0 []⟩

/-- C7: the latched error is sticky and write-once: from a state with a
latched error every step of the batch state machine (an `Add` call, a
`Commit` call, a `processResults` drain or an `asyncCommit`) leaves the
state literally unchanged, so the error is never cleared or overwritten
and no new flush is ever launched (the `flushes` history is frozen). -/
theorem latched_error_sticky (rawLen : Blk → Nat) (mp : Nat)
    (store : List Blk → Option Err) (t t' : Batch Blk Err) (e : Err)
    (h : t.commitError = some e) (hs : Step rawLen mp store t t') :
    t' = t ∧ t'.commitError = some e ∧ t'.flushes = t.flushes := by
  have h0 := step_of_failed rawLen mp store t t' e h hs
  subst h0
  exact ⟨rfl, h, rfl⟩

/-- Witness for C7: a `processResults` step from a concrete failed batch. -/
theorem latched_error_sticky_witness :
    processResults (fun _ => (none : Option Nat)) [] failedB = failedB ∧
    (processResults (fun _ => (none : Option Nat)) [] failedB).commitError = some 7 ∧
    (processResults (fun _ => (none : Option Nat)) [] failedB).flushes = failedB.flushes :=
  latched_error_sticky pairLen 2 (fun _ => none) failedB _ 7 rfl
    (@Step.process (Nat × Nat) Nat pairLen 2 (fun _ => none) [] failedB)

/-- C6: `Commit` is idempotent: whatever result a `Commit` call
produced, an immediately repeated `Commit` (with any completion
schedule) returns the same result and leaves the state unchanged, so it
issues no new flush and performs no receive. -/
theorem commit_idempotent (mp : Nat) (store : List Blk → Option Err)
    (pick pick2 : Nat) (picks picks2 : List Nat) (t : Batch Blk Err)
    (r : Option Err) (t' : Batch Blk Err)
    (h : Batch.Commit mp store pick picks t = some (r, t')) :
    Batch.Commit mp store pick2 picks2 t' = some (r, t') := by
  obtain ⟨hr, t₁, hac, hdr⟩ := commit_result mp store pick picks t r t' h
  cases r with
  | some e => exact commit_failed mp store pick2 picks2 t' e hr.symm
  | none =>
    have hce : t'.commitError = none := hr.symm
    have ht1e : t₁.commitError = none := by
      cases h1e : t₁.commitError with
      | none => rfl
      | some e =>
        rw [drain_failed store picks t₁ e h1e] at hdr
        simp only [Option.some.injEq] at hdr
        rw [← hdr, h1e] at hce
        exact Option.noConfusion hce
    have hb1 : t₁.blocks = [] := by
      rcases asyncCommit_cases mp store pick t t₁ hac with
        ⟨rfl, hor⟩ | ⟨i, e, hi, _, rfl, he2, _⟩ | ⟨i, hi, _, rfl, he2, _⟩ | ⟨rfl, _, _, _⟩
      · rcases hor with hh | ⟨e, he2⟩
        · exact hh
        · rw [he2] at ht1e; exact Option.noConfusion ht1e
      · simp [Batch.receive] at ht1e
      · rfl
      · rfl
    have hb : t'.blocks = [] := (drain_keeps store picks t₁ t' hdr).1.trans hb1
    have ha0 : t'.activeCommits = 0 := by
      rcases drain_post store picks t₁ t' hdr with h0 | ⟨e, he2⟩
      · exact h0
      · rw [hce] at he2; exact Option.noConfusion he2
    unfold Batch.Commit
    rw [asyncCommit_empty mp store pick2 t' hb]
    dsimp only []
    rw [drain_zero_active store picks2 t' ha0]
    dsimp only []
    rw [hce]

/-- Witness for C6: the state left by a successful concrete `Commit`
(of one buffered block) re-commits to the same result. -/
theorem commit_idempotent_witness :
    Batch.Commit 2 (fun _ => (none : Option Nat)) 1 [2]
        ({ Batch.init 5 5 with flushes := [[(1, 2)]], drained := [none] } : Batch (Nat × Nat) Nat)
      = some (none, { Batch.init 5 5 with flushes := [[(1, 2)]], drained := [none] }) :=
  commit_idempotent 2 (fun _ => none) 0 1 [] [2]
    ({ Batch.init 5 5 with blocks := [(1, 2)], size := 2 }) none
    ({ Batch.init 5 5 with flushes := [[(1, 2)]], drained := [none] }) (by decide)

/-- C2 counterexample: with two flushes in flight over a store that
always fails, `Commit` exits its drain loop on the first received error
and returns while the other flush is still unaccounted: the in-flight
count at return is 1, not 0. -/
theorem commit_early_exit_cex :
    ((addAll pairLen 2 (fun _ => some 7) [(1, 1), (2, 1)]
        (Batch.init 0 0 : Batch (Nat × Nat) Nat)).bind
      (fun t => Batch.Commit 2 (fun _ => some 7) 0 [0] t)).map
        (fun p => (p.1, p.2.activeCommits))
      = some (some 7, 1) := by decide

/-- C2 (amended): when `Commit` returns on a reachable batch, the
returned value is the first error observed in notification-drain order
(the first error in the `drained` history), or none if every observed
completion succeeded; when it returns no error, every flush ever issued
has been accounted for: the in-flight count is zero and nothing remains
in flight.  When it returns an error, later flushes may remain
unaccounted (see the counterexample). -/
theorem commit_first_error_in_drain_order (rawLen : Blk → Nat) (mp : Nat)
    (store : List Blk → Option Err) (ms mb : Nat) (pick : Nat) (picks : List Nat)
    (t : Batch Blk Err) (r : Option Err) (t' : Batch Blk Err)
    (hre : Reachable rawLen mp store ms mb t)
    (h : Batch.Commit mp store pick picks t = some (r, t')) :
    r = t'.drained.findSome? id ∧
    (r = none → t'.activeCommits = 0 ∧ t'.inflight = []) := by
  have hI' : Inv rawLen mp t' :=
    commit_inv rawLen mp store pick picks t r t' (reachable_inv rawLen mp store ms mb t hre) h
  obtain ⟨hr, t₁, hac, hdr⟩ := commit_result mp store pick picks t r t' h
  refine ⟨by rw [hr, hI'.2.2.2], fun hn => ?_⟩
  have ha0 : t'.activeCommits = 0 := by
    rcases drain_post store picks t₁ t' hdr with h0 | ⟨e, he2⟩
    · exact h0
    · rw [hn] at hr
      rw [← hr] at he2
      exact Option.noConfusion he2
  exact ⟨ha0, List.length_eq_zero.mp (by rw [← hI'.1, ha0])⟩

/-- State after one `Add` of a 1-byte block on a zero-threshold batch:
the single-block flush has been dispatched and is in flight. -/
def oneAddB : Batch (Nat × Nat) Nat :=
  { Batch.init 0 0 with activeCommits := 1, inflight := [[(1, 1)]], flushes := [[(1, 1)]] }

/-- State after `Commit` drains the flush of `oneAddB`. -/
def oneAddDoneB : Batch (Nat × Nat) Nat :=
  { Batch.init 0 0 with flushes := [[(1, 1)]], drained := [none] }

/-- Witness for the amended C2 on a concrete reachable one-flush batch. -/
theorem commit_first_error_in_drain_order_witness :
    (none : Option Nat) = oneAddDoneB.drained.findSome? id ∧
    ((none : Option Nat) = none → oneAddDoneB.activeCommits = 0 ∧ oneAddDoneB.inflight = []) :=
  commit_first_error_in_drain_order pairLen 2 (fun _ => none) 0 0 0 [] oneAddB none oneAddDoneB
    (Relation.ReflTransGen.single
      (Step.add [] 0 (1, 1) (some (1, 1)) none (Batch.init 0 0) oneAddB (by decide)))
    (by decide)

/-- C5: at every reachable state of a batch the in-flight flush count
lies between 0 and `mp` (the `ParallelBatchCommits` bound), and a
dispatch from a reachable state never drives it above the bound: when
the bound is reached, `asyncCommit` first blocks for one completion
before launching new work. -/
theorem inflight_within_parallel_bound (rawLen : Blk → Nat) (mp : Nat)
    (store : List Blk → Option Err) (ms mb : Nat) (t : Batch Blk Err)
    (h : Reachable rawLen mp store ms mb t) :
    (0 ≤ t.activeCommits ∧ t.activeCommits ≤ mp) ∧
    (∀ pick t', asyncCommit mp store pick t = some t' → t'.activeCommits ≤ mp) := by
  have hI := reachable_inv rawLen mp store ms mb t h
  exact ⟨⟨Nat.zero_le _, hI.2.1⟩,
    fun pick t' hac => (asyncCommit_inv rawLen mp store pick t t' hI hac).2.1⟩

/-- Witness for C5 on a concrete reachable one-flush batch. -/
theorem inflight_within_parallel_bound_witness :
    ((0 ≤ oneAddB.activeCommits ∧ oneAddB.activeCommits ≤ 2) ∧
      (∀ pick t', asyncCommit 2 (fun _ => (none : Option Nat)) pick oneAddB = some t' →
        t'.activeCommits ≤ 2)) :=
  inflight_within_parallel_bound pairLen 2 (fun _ => none) 0 0 oneAddB
    (Relation.ReflTransGen.single
      (Step.add [] 0 (1, 1) (some (1, 1)) none (Batch.init 0 0) oneAddB (by decide)))

/-- C8: at every reachable state `size` (`pendingBytes`) equals the sum
of the byte lengths of the pending blocks; moreover a dispatch clears
the accumulation window immediately: `asyncCommit` returns with
`pending` empty and `pendingBytes` zero while the dispatched flush is
still in flight (appended to `inflight`, its completion not yet
received). -/
theorem pending_bytes_invariant (rawLen : Blk → Nat) (mp : Nat)
    (store : List Blk → Option Err) (ms mb : Nat) (t : Batch Blk Err)
    (h : Reachable rawLen mp store ms mb t) :
    t.size = (t.blocks.map rawLen).sum ∧
    (∀ pick, t.commitError = none → t.blocks ≠ [] → t.activeCommits < mp →
      asyncCommit mp store pick t = some t.launch ∧
      t.launch.blocks = [] ∧ t.launch.size = 0 ∧
      t.launch.inflight = t.inflight ++ [t.blocks] ∧
      t.launch.flushes = t.flushes ++ [t.blocks]) :=
  ⟨(reachable_inv rawLen mp store ms mb t h).2.2.1,
   fun pick h1 h2 h3 =>
     ⟨asyncCommit_launch mp store pick t h1 h2 h3, rfl, rfl, rfl, rfl⟩⟩

/-- State after two below-threshold `Add` calls. -/
def twoAddB : Batch (Nat × Nat) Nat :=
  { Batch.init 1000 3 with blocks := [(1, 400), (2, 400)], size := 800 }

/-- Witness for C8 on a concrete reachable two-block pending buffer. -/
theorem pending_bytes_invariant_witness :
    twoAddB.size = (twoAddB.blocks.map pairLen).sum ∧
    (asyncCommit 2 (fun _ => (none : Option Nat)) 0 twoAddB = some twoAddB.launch ∧
      twoAddB.launch.blocks = [] ∧ twoAddB.launch.size = 0 ∧
      twoAddB.launch.inflight = twoAddB.inflight ++ [twoAddB.blocks] ∧
      twoAddB.launch.flushes = twoAddB.flushes ++ [twoAddB.blocks]) := by
  have hre : Reachable pairLen 2 (fun _ => (none : Option Nat)) 1000 3 twoAddB :=
    Relation.ReflTransGen.tail
      (Relation.ReflTransGen.single
        (Step.add [] 0 (1, 400) (some (1, 400)) none (Batch.init 1000 3)
          ({ Batch.init 1000 3 with blocks := [(1, 400)], size := 400 }) (by decide)))
      (Step.add [] 0 (2, 400) (some (2, 400)) none _ twoAddB (by decide))
  exact ⟨(pending_bytes_invariant pairLen 2 (fun _ => none) 1000 3 twoAddB hre).1,
    (pending_bytes_invariant pairLen 2 (fun _ => none) 1000 3 twoAddB hre).2 0 rfl
      (by decide) (by decide)⟩

/-- C3 counterexample: an `Add` on an unfailed batch that crosses the
byte threshold but dispatches nothing: with `maxParallel = 1` the only
dispatch slot is taken and the blocking backpressure receive returns
the error of the in-flight flush, so the error is latched, the flush
history does not grow, and the crossing block stays buffered. -/
theorem add_threshold_no_dispatch_cex :
    ((addAll pairLen 1 (fun _ => some 7) [(1, 1)]
        (Batch.init 0 0 : Batch (Nat × Nat) Nat)).map
      (fun u => (u.commitError, u.flushes, u.size, u.MaxSize))
      = some (none, [[(1, 1)]], 0, 0)) ∧
    (((addAll pairLen 1 (fun _ => some 7) [(1, 1)]
        (Batch.init 0 0 : Batch (Nat × Nat) Nat)).bind
      (fun u => Batch.Add pairLen 1 (fun _ => some 7) [] 0 u (2, 1))).map
        (fun p => (p.2.1, p.2.2.flushes, p.2.2.blocks))
      = some (some 7, [[(1, 1)]], [(2, 1)])) :=
  ⟨by decide, by decide⟩

/-- C3 (amended): on an unfailed batch (after the initial non-blocking
drain, whose result is `t₁`) an `Add` crossing no threshold only
buffers the block and dispatches nothing; an `Add` that pushes
`pendingBytes` over `maxBytes` or the pending count over `maxCount`
dispatches a flush of exactly the pending window plus the new block —
immediately when a dispatch slot is free, and after freeing one slot
when the in-flight bound is reached and the blocking backpressure
receive yields a successful completion; but when that backpressure
receive yields an error, the error is latched and no flush is
dispatched: the crossing block stays buffered (see the
counterexample).  So dispatch iff threshold holds except in the
failing-backpressure case. -/
theorem add_dispatch_iff_threshold (rawLen : Blk → Nat) (mp : Nat)
    (store : List Blk → Option Err) (pr : List Nat) (pick : Nat)
    (t t₁ : Batch Blk Err) (nd : Blk)
    (hpr : processResults store pr t = t₁)
    (h1 : t₁.commitError = none) :
    (¬(t₁.size + rawLen nd > t₁.MaxSize ∨ t₁.blocks.length + 1 > t₁.MaxBlocks) →
      Batch.Add rawLen mp store pr pick t nd =
        some (some nd, none, Batch.append rawLen t₁ nd) ∧
      (Batch.append rawLen t₁ nd).flushes = t₁.flushes ∧
      (Batch.append rawLen t₁ nd).blocks = t₁.blocks ++ [nd] ∧
      (Batch.append rawLen t₁ nd).size = t₁.size + rawLen nd) ∧
    ((t₁.size + rawLen nd > t₁.MaxSize ∨ t₁.blocks.length + 1 > t₁.MaxBlocks) →
      t₁.activeCommits < mp →
      Batch.Add rawLen mp store pr pick t nd =
        some (some nd, none, (Batch.append rawLen t₁ nd).launch) ∧
      (Batch.append rawLen t₁ nd).launch.flushes = t₁.flushes ++ [t₁.blocks ++ [nd]] ∧
      (Batch.append rawLen t₁ nd).launch.blocks = [] ∧
      (Batch.append rawLen t₁ nd).launch.size = 0) ∧
    ((t₁.size + rawLen nd > t₁.MaxSize ∨ t₁.blocks.length + 1 > t₁.MaxBlocks) →
      mp ≤ t₁.activeCommits → ¬t₁.inflight.length = 0 →
      store (t₁.inflight.getD (pick % t₁.inflight.length) []) = none →
      Batch.Add rawLen mp store pr pick t nd =
        some (some nd, none,
          ((Batch.append rawLen t₁ nd).receive (pick % t₁.inflight.length) none).launch) ∧
      ((Batch.append rawLen t₁ nd).receive (pick % t₁.inflight.length) none).launch.flushes
        = t₁.flushes ++ [t₁.blocks ++ [nd]] ∧
      ((Batch.append rawLen t₁ nd).receive (pick % t₁.inflight.length) none).launch.blocks
        = []) ∧
    ((t₁.size + rawLen nd > t₁.MaxSize ∨ t₁.blocks.length + 1 > t₁.MaxBlocks) →
      mp ≤ t₁.activeCommits → ¬t₁.inflight.length = 0 →
      ∀ e, store (t₁.inflight.getD (pick % t₁.inflight.length) []) = some e →
      Batch.Add rawLen mp store pr pick t nd =
        some (some nd, some e,
          (Batch.append rawLen t₁ nd).receive (pick % t₁.inflight.length) (some e)) ∧
      ((Batch.append rawLen t₁ nd).receive (pick % t₁.inflight.length) (some e)).flushes
        = t₁.flushes ∧
      ((Batch.append rawLen t₁ nd).receive (pick % t₁.inflight.length) (some e)).blocks
        = t₁.blocks ++ [nd] ∧
      ((Batch.append rawLen t₁ nd).receive (pick % t₁.inflight.length) (some e)).commitError
        = some e) := by
  refine ⟨fun hth => ?_, fun hth h2 => ?_, fun hth h3 h4 h5 => ?_, fun hth h3 h4 e h5 => ?_⟩
  · have hth' : ¬((Batch.append rawLen t₁ nd).size > (Batch.append rawLen t₁ nd).MaxSize
        ∨ (Batch.append rawLen t₁ nd).blocks.length > (Batch.append rawLen t₁ nd).MaxBlocks) := by
      simpa [Batch.append, List.length_append] using hth
    refine ⟨?_, rfl, rfl, rfl⟩
    unfold Batch.Add
    rw [hpr]
    exact addStep_no_dispatch rawLen mp store pick t₁ nd h1 hth'
  · have hth' : (Batch.append rawLen t₁ nd).size > (Batch.append rawLen t₁ nd).MaxSize
        ∨ (Batch.append rawLen t₁ nd).blocks.length > (Batch.append rawLen t₁ nd).MaxBlocks := by
      simpa [Batch.append, List.length_append] using hth
    refine ⟨?_, by simp [Batch.launch, Batch.append], rfl, rfl⟩
    unfold Batch.Add
    rw [hpr]
    exact addStep_dispatch rawLen mp store pick t₁ nd h1 h2 hth'
  · have hth' : (Batch.append rawLen t₁ nd).size > (Batch.append rawLen t₁ nd).MaxSize
        ∨ (Batch.append rawLen t₁ nd).blocks.length > (Batch.append rawLen t₁ nd).MaxBlocks := by
      simpa [Batch.append, List.length_append] using hth
    refine ⟨?_, by simp [Batch.launch, Batch.receive, Batch.append], rfl⟩
    unfold Batch.Add
    rw [hpr]
    exact addStep_ceiling_ok rawLen mp store pick t₁ nd h1 h3 h4 h5 hth'
  · have hth' : (Batch.append rawLen t₁ nd).size > (Batch.append rawLen t₁ nd).MaxSize
        ∨ (Batch.append rawLen t₁ nd).blocks.length > (Batch.append rawLen t₁ nd).MaxBlocks := by
      simpa [Batch.append, List.length_append] using hth
    refine ⟨?_, rfl, rfl, rfl⟩
    unfold Batch.Add
    rw [hpr]
    exact addStep_ceiling_err rawLen mp store pick t₁ nd e h1 h3 h4 h5 hth'

/-- A fresh concrete batch with `MaxSize = 10`, `MaxBlocks = 2`. -/
def c3T : Batch (Nat × Nat) Nat := Batch.init 10 2

/-- Witness for the amended C3: a fresh batch with byte threshold 10
receiving an 11-byte block with a free dispatch slot dispatches a flush
of exactly that block. -/
theorem add_dispatch_iff_threshold_witness :
    Batch.Add pairLen 2 (fun _ => none) [] 0 c3T (1, 11) =
      some (some (1, 11), none, (Batch.append pairLen c3T (1, 11)).launch) ∧
    (Batch.append pairLen c3T (1, 11)).launch.flushes
      = c3T.flushes ++ [c3T.blocks ++ [(1, 11)]] ∧
    (Batch.append pairLen c3T (1, 11)).launch.blocks = [] ∧
    (Batch.append pairLen c3T (1, 11)).launch.size = 0 :=
  (add_dispatch_iff_threshold pairLen 2 (fun _ => none) [] 0 c3T c3T (1, 11) rfl rfl).2.1
    (by decide) (by decide)

/-- C10 counterexample: a zero-configured batch whose only dispatch
slot (with `maxParallel = 1`) is taken by a flush that fails: the next
`Add`, entered on an unfailed batch, crosses the zero threshold yet
dispatches nothing — the backpressure receive latches the error, the
flush history does not grow, and the block stays buffered. -/
theorem zero_threshold_no_dispatch_cex :
    ((addAll pairLen 1 (fun _ => some 9) [(3, 1)]
        (Batch.init 0 0 : Batch (Nat × Nat) Nat)).map
      (fun u => (u.commitError, u.flushes, u.MaxSize, u.MaxBlocks))
      = some (none, [[(3, 1)]], 0, 0)) ∧
    (((addAll pairLen 1 (fun _ => some 9) [(3, 1)]
        (Batch.init 0 0 : Batch (Nat × Nat) Nat)).bind
      (fun u => Batch.Add pairLen 1 (fun _ => some 9) [] 0 u (4, 1))).map
        (fun p => (p.2.1, p.2.2.flushes, p.2.2.blocks))
      = some (some 9, [[(3, 1)]], [(4, 1)])) :=
  ⟨by decide, by decide⟩

/-- C10 (amended): zero-valued thresholds mean always exceeded, not
unlimited: with `MaxBlocks = 0` the pending count of at least 1
exceeds 0, and with `MaxSize = 0` any block with non-empty raw data
crosses the byte threshold, so every `Add` on an unfailed batch crosses
a threshold and calls the dispatcher; the pending window plus the new
block is flushed immediately when a dispatch slot is free, and after
freeing one slot when the in-flight bound is reached and the blocking
backpressure receive yields a successful completion; but when that
receive yields an error, the `Add` latches it and leaves the block
buffered without dispatching (see the counterexample). -/
theorem zero_threshold_always_dispatch (rawLen : Blk → Nat) (mp : Nat)
    (store : List Blk → Option Err) (pr : List Nat) (pick : Nat)
    (t t₁ : Batch Blk Err) (nd : Blk)
    (hpr : processResults store pr t = t₁)
    (h1 : t₁.commitError = none)
    (hz : t₁.MaxBlocks = 0 ∨ (t₁.MaxSize = 0 ∧ 0 < rawLen nd)) :
    (t₁.activeCommits < mp →
      Batch.Add rawLen mp store pr pick t nd =
        some (some nd, none, (Batch.append rawLen t₁ nd).launch) ∧
      (Batch.append rawLen t₁ nd).launch.flushes = t₁.flushes ++ [t₁.blocks ++ [nd]] ∧
      (Batch.append rawLen t₁ nd).launch.blocks = []) ∧
    (mp ≤ t₁.activeCommits → ¬t₁.inflight.length = 0 →
      store (t₁.inflight.getD (pick % t₁.inflight.length) []) = none →
      Batch.Add rawLen mp store pr pick t nd =
        some (some nd, none,
          ((Batch.append rawLen t₁ nd).receive (pick % t₁.inflight.length) none).launch) ∧
      ((Batch.append rawLen t₁ nd).receive (pick % t₁.inflight.length) none).launch.flushes
        = t₁.flushes ++ [t₁.blocks ++ [nd]] ∧
      ((Batch.append rawLen t₁ nd).receive (pick % t₁.inflight.length) none).launch.blocks
        = []) ∧
    (mp ≤ t₁.activeCommits → ¬t₁.inflight.length = 0 →
      ∀ e, store (t₁.inflight.getD (pick % t₁.inflight.length) []) = some e →
      Batch.Add rawLen mp store pr pick t nd =
        some (some nd, some e,
          (Batch.append rawLen t₁ nd).receive (pick % t₁.inflight.length) (some e)) ∧
      ((Batch.append rawLen t₁ nd).receive (pick % t₁.inflight.length) (some e)).flushes
        = t₁.flushes ∧
      ((Batch.append rawLen t₁ nd).receive (pick % t₁.inflight.length) (some e)).blocks
        = t₁.blocks ++ [nd]) := by
  have hth' : (Batch.append rawLen t₁ nd).size > (Batch.append rawLen t₁ nd).MaxSize
      ∨ (Batch.append rawLen t₁ nd).blocks.length > (Batch.append rawLen t₁ nd).MaxBlocks := by
    rcases hz with hmb | ⟨hms, hlen⟩
    · exact Or.inr (by simp [Batch.append, List.length_append, hmb])
    · exact Or.inl (by simp [Batch.append, hms]; omega)
  refine ⟨fun h2 => ?_, fun h3 h4 h5 => ?_, fun h3 h4 e h5 => ?_⟩
  · refine ⟨?_, by simp [Batch.launch, Batch.append], rfl⟩
    unfold Batch.Add
    rw [hpr]
    exact addStep_dispatch rawLen mp store pick t₁ nd h1 h2 hth'
  · refine ⟨?_, by simp [Batch.launch, Batch.receive, Batch.append], rfl⟩
    unfold Batch.Add
    rw [hpr]
    exact addStep_ceiling_ok rawLen mp store pick t₁ nd h1 h3 h4 h5 hth'
  · refine ⟨?_, rfl, rfl⟩
    unfold Batch.Add
    rw [hpr]
    exact addStep_ceiling_err rawLen mp store pick t₁ nd e h1 h3 h4 h5 hth'

/-- A fresh concrete batch with both thresholds zero. -/
def c10T : Batch (Nat × Nat) Nat := Batch.init 0 0

/-- Witness for the amended C10: a zero-configured batch with a free
dispatch slot flushes a one-block window on an `Add`. -/
theorem zero_threshold_always_dispatch_witness :
    Batch.Add pairLen 2 (fun _ => none) [] 0 c10T (1, 5) =
      some (some (1, 5), none, (Batch.append pairLen c10T (1, 5)).launch) ∧
    (Batch.append pairLen c10T (1, 5)).launch.flushes
      = c10T.flushes ++ [c10T.blocks ++ [(1, 5)]] ∧
    (Batch.append pairLen c10T (1, 5)).launch.blocks = [] :=
  (zero_threshold_always_dispatch pairLen 2 (fun _ => none) [] 0 c10T c10T (1, 5) rfl rfl
    (Or.inl rfl)).1 (by decide)

/-- Committing a quiescent batch (no error, nothing in flight, a
non-empty pending buffer) launches exactly one flush of the buffer and
drains its single completion. -/
theorem commit_quiescent (mp : Nat) (store : List Blk → Option Err) (pick : Nat)
    (picks : List Nat) (u : Batch Blk Err) (he : u.commitError = none)
    (ha : u.activeCommits = 0) (hin : u.inflight = []) (hb : u.blocks ≠ [])
    (hmp : 0 < mp) :
    Batch.Commit mp store pick picks u =
      some (store u.blocks, (u.launch).receive 0 (store u.blocks)) := by
  have hacu := asyncCommit_launch mp store pick u he hb (by omega)
  unfold Batch.Commit
  rw [hacu]
  dsimp only []
  rw [drain_one store picks u.launch u.blocks (by simp [Batch.launch, ha])
    (by simp [Batch.launch, he]) (by simp [Batch.launch, hin])]
  dsimp only []
  rfl

/-- C4: for a non-empty sequence of `Add` calls whose cumulative byte
size stays within `maxBytes` and whose count stays within `maxCount`,
no flush is issued before `Commit` (the flush history stays empty and
all blocks are pending), and `Commit` then issues exactly one bulk
write containing exactly the added blocks, in order, returning that
write's outcome with nothing left in flight. -/
theorem under_threshold_single_flush (rawLen : Blk → Nat) (mp : Nat)
    (store : List Blk → Option Err) (ms mb : Nat) (ns : List Blk)
    (hne : ns ≠ []) (hmp : 0 < mp)
    (hsz : (ns.map rawLen).sum ≤ ms) (hct : ns.length ≤ mb) :
    ∃ t', addAll rawLen mp store ns (Batch.init ms mb) = some t' ∧
      t'.flushes = [] ∧ t'.blocks = ns ∧ t'.size = (ns.map rawLen).sum ∧
      ∃ t'', Batch.Commit mp store 0 [] t' = some (store ns, t'') ∧
        t''.flushes = [ns] ∧ t''.activeCommits = 0 := by
  have h0 := addAll_no_dispatch rawLen mp store ns (Batch.init ms mb) rfl
    (by simpa [Batch.init] using hsz) (by simpa [Batch.init] using hct)
  refine ⟨_, h0, rfl, by simp [Batch.init], by simp [Batch.init],
    ⟨_, commit_quiescent mp store 0 [] _ rfl rfl rfl ?_ hmp, ?_, ?_⟩⟩
  · simpa [Batch.init] using hne
  · simp [Batch.launch, Batch.receive, Batch.init]
  · simp [Batch.launch, Batch.receive, Batch.init]

/-- Witness for C4: two below-threshold blocks on a fresh batch. -/
theorem under_threshold_single_flush_witness :
    ∃ t', addAll pairLen 2 (fun _ => (none : Option Nat)) [(1, 2), (2, 3)]
        (Batch.init 10 5) = some t' ∧
      t'.flushes = [] ∧ t'.blocks = [(1, 2), (2, 3)] ∧
      t'.size = (([(1, 2), (2, 3)] : List (Nat × Nat)).map pairLen).sum ∧
      ∃ t'', Batch.Commit 2 (fun _ => none) 0 [] t' = some (none, t'') ∧
        t''.flushes = [[(1, 2), (2, 3)]] ∧ t''.activeCommits = 0 :=
  under_threshold_single_flush pairLen 2 (fun _ => none) 10 5 [(1, 2), (2, 3)]
    (by decide) (by decide) (by decide) (by decide)

/-- C9: concrete scenario with `maxBytes = 1000`, `maxCount = 3`,
`maxParallel = 2`, five 400-byte nodes and a never-failing store: no
flush is issued during the first two Adds; the third Add dispatches a
flush of exactly the first three nodes and leaves a fresh empty window;
after all five Adds the window holds exactly the last two nodes;
`Commit` succeeds, having issued exactly one more flush of those two
nodes, for a total of exactly two bulk writes covering 2000 bytes, with
nothing left in flight. -/
theorem five_adds_two_flushes_scenario :
    ((addAll pairLen 2 (fun _ => none) [(1, 400), (2, 400)]
        (Batch.init 1000 3 : Batch (Nat × Nat) Nat)).map (fun t => t.flushes)
      = some []) ∧
    ((addAll pairLen 2 (fun _ => none) [(1, 400), (2, 400), (3, 400)]
        (Batch.init 1000 3 : Batch (Nat × Nat) Nat)).map
          (fun t => (t.flushes, t.blocks, t.size))
      = some ([[(1, 400), (2, 400), (3, 400)]], [], 0)) ∧
    ((addAll pairLen 2 (fun _ => none) [(1, 400), (2, 400), (3, 400), (4, 400), (5, 400)]
        (Batch.init 1000 3 : Batch (Nat × Nat) Nat)).map (fun t => t.blocks)
      = some [(4, 400), (5, 400)]) ∧
    (((addAll pairLen 2 (fun _ => none) [(1, 400), (2, 400), (3, 400), (4, 400), (5, 400)]
        (Batch.init 1000 3 : Batch (Nat × Nat) Nat)).bind
      (fun t => Batch.Commit 2 (fun _ => none) 0 [] t)).map
        (fun p => (p.1, p.2.flushes, p.2.flushes.length,
          (p.2.flushes.map (fun f => (f.map pairLen).sum)).sum, p.2.activeCommits))
      = some (none, [[(1, 400), (2, 400), (3, 400)], [(4, 400), (5, 400)]], 2, 2000, 0)) :=
  ⟨by decide, by decide, by decide, by decide⟩

end Merkledag
